import Mathlib

/-!
Shallow embedding of the allocator subsystem of the `min-rust-os` kernel
(src/allocator.rs, src/allocator/bump.rs, src/allocator/linked_list.rs,
src/allocator/fixed_size_block.rs), together with theorems settling the
specification claims about it.

Machine integers: the kernel targets x86_64, so `usize` is 64 bits.  We model
usize values as `Nat` and insert `% USIZE` exactly where the source performs
wrapping arithmetic (the `+` inside `align_up`, compiled in release mode) and
model `checked_add` explicitly where the source uses it.  Fallible operations
(a Rust panic from an `assert!` or `expect`) are modelled as `Option`, with
`none` standing for the panic.
-/

/-- Number of values of a 64-bit machine word (`usize` on x86_64). -/
def USIZE : Nat := 2 ^ 64

/-- Rust `usize::checked_add`: `some (x + y)` unless the sum overflows 64 bits. -/
def checked_add (x y : Nat) : Option Nat :=
  if x + y < USIZE then some (x + y) else none

/-- Bitwise NOT on a 64-bit word: `!x = 2^64 - 1 - x` for `x < 2^64`. -/
def usize_not (x : Nat) : Nat := USIZE - 1 - x % USIZE

/-- Model of `align_up` from src/allocator.rs: `(addr + align - 1) & !(align - 1)`,
with the addition wrapping as release-mode usize arithmetic does. -/
def align_up (addr align : Nat) : Nat :=
  ((addr + align - 1) % USIZE) &&& usize_not ((align - 1) % USIZE)

/-- Constant `HEAP_START` from src/allocator.rs. -/
def HEAP_START : Nat := 0x444444440000

/-- Constant `HEAP_SIZE` from src/allocator.rs. -/
def HEAP_SIZE : Nat := 100 * 1024

/-- Model of `core::alloc::Layout`: a `(size, align)` request descriptor.  The
invariant that `align` is a power of two is carried as a hypothesis by the
theorems that need it. -/
structure Layout where
  size : Nat
  align : Nat
deriving DecidableEq

/-- State of `BumpAllocator` from src/allocator/bump.rs. -/
structure BumpAllocator where
  heap_start : Nat
  heap_end : Nat
  next : Nat
  allocations : Nat
deriving DecidableEq

/-- Constructor `BumpAllocator::new`. -/
def BumpAllocator.new : BumpAllocator :=
  { heap_start := 0, heap_end := 0, next := 0, allocations := 0 }

/-- Method `BumpAllocator::init`. -/
def BumpAllocator.init (b : BumpAllocator) (hs hz : Nat) : BumpAllocator :=
  { b with heap_start := hs, heap_end := hs + hz, next := hs }

/-- Model of `GlobalAlloc::alloc` for `Locked<BumpAllocator>`: the returned `Option Nat`
is the returned pointer (`none` = null), paired with the post-state. -/
def bumpAlloc (b : BumpAllocator) (layout : Layout) : Option Nat × BumpAllocator :=
  let alloc_start := align_up b.next layout.align
  match checked_add alloc_start layout.size with
  | none => (none, b)
  | some alloc_end =>
      if b.heap_end < alloc_end then (none, b)
      else (some alloc_start,
            { b with next := alloc_end, allocations := b.allocations + 1 })

/-- Model of `GlobalAlloc::dealloc` for `Locked<BumpAllocator>`: ignores its pointer and
layout arguments, decrements the counter and resets `next` when it reaches 0. -/
def bumpDealloc (b : BumpAllocator) (p : Nat) (layout : Layout) : BumpAllocator :=
  let _ := p
  let _ := layout
  let b1 := { b with allocations := b.allocations - 1 }
  if b1.allocations = 0 then { b1 with next := b1.heap_start } else b1

/-- A sequence of `alloc` calls that must all succeed (`none` when one fails). -/
def bumpAllocMany : BumpAllocator → List Layout → Option BumpAllocator
  | b, [] => some b
  | b, layout :: rest =>
      match bumpAlloc b layout with
      | (some _, b1) => bumpAllocMany b1 rest
      | (none, _) => none

/-- A sequence of `dealloc` calls with arbitrary pointer/layout arguments. -/
def bumpDeallocMany : BumpAllocator → List (Nat × Layout) → BumpAllocator
  | b, [] => b
  | b, p :: rest => bumpDeallocMany (bumpDealloc b p.1 p.2) rest

/-- Value of `mem::size_of::<ListNode>()` for the linked-list allocator's
`ListNode { size: usize, next: Option<&'static mut ListNode> }` on x86_64. -/
def LL_NODE_SIZE : Nat := 16

/-- Value of `mem::align_of::<ListNode>()` for the linked-list allocator's node. -/
def LL_NODE_ALIGN : Nat := 8

/-- A free region tracked by the linked-list allocator: the in-place
`ListNode` at address `addr` describing `size` bytes.  The allocator's list
(reached from the dummy head's `next`) is modelled as a `List Region` in list
order. -/
structure Region where
  addr : Nat
  size : Nat
deriving DecidableEq

/-- Method `ListNode::end_addr`: `start_addr + size`. -/
def Region.end_addr (r : Region) : Nat := r.addr + r.size

/-- Model of `LinkedListAllocator::add_free_region`: asserts that `addr` is aligned for
a node header and `size` can hold one, then pushes the region at the front of
the list.  `none` models the assertion panic. -/
def add_free_region (l : List Region) (addr size : Nat) : Option (List Region) :=
  if align_up addr LL_NODE_ALIGN = addr ∧ LL_NODE_SIZE ≤ size then
    some ({ addr := addr, size := size } :: l)
  else
    none

/-- Model of `LinkedListAllocator::alloc_from_region`: the allocation start on success. -/
def alloc_from_region (r : Region) (size align : Nat) : Option Nat :=
  let alloc_start := align_up r.addr align
  match checked_add alloc_start size with
  | none => none
  | some alloc_end =>
      if r.end_addr < alloc_end then none else some alloc_start

/-- Model of `LinkedListAllocator::find_region`: first-fit search; on success returns
the removed region, the allocation start, and the remaining list. -/
def find_region (l : List Region) (size align : Nat) :
    Option (Region × Nat × List Region) :=
  match l with
  | [] => none
  | r :: rest =>
      match alloc_from_region r size align with
      | some alloc_start => some (r, alloc_start, rest)
      | none =>
          match find_region rest size align with
          | some x => some (x.1, x.2.1, r :: x.2.2)
          | none => none

/-- Model of `LinkedListAllocator::size_align`: `layout.align_to(align_of::<ListNode>())
.pad_to_align()`, then size is maxed with `size_of::<ListNode>()`. -/
def size_align (layout : Layout) : Nat × Nat :=
  let align := max layout.align LL_NODE_ALIGN
  let size := align_up layout.size align
  (max size LL_NODE_SIZE, align)

/-- Model of `GlobalAlloc::alloc` for `Locked<LinkedListAllocator>`.  Outer `none`
models a panic (the `expect("overflow")` or an `add_free_region` assertion);
inner `none` is the null return. -/
def llAlloc (l : List Region) (layout : Layout) :
    Option (Option Nat × List Region) :=
  let sa := size_align layout
  match find_region l sa.1 sa.2 with
  | some x =>
      match checked_add x.2.1 sa.1 with
      | none => none
      | some alloc_end =>
          let excess_size := x.1.end_addr - alloc_end
          if 0 < excess_size then
            match add_free_region x.2.2 alloc_end excess_size with
            | some l2 => some (some x.2.1, l2)
            | none => none
          else
            some (some x.2.1, x.2.2)
  | none => some (none, l)

/-- Model of `GlobalAlloc::dealloc` for `Locked<LinkedListAllocator>`: adjust the layout
and push the freed region; `none` models the assertion panic. -/
def llDealloc (l : List Region) (ptr : Nat) (layout : Layout) : Option (List Region) :=
  add_free_region l ptr (size_align layout).1

/-- Constant `BLOCK_SIZES` from src/allocator/fixed_size_block.rs. -/
def BLOCK_SIZES : List Nat := [8, 16, 32, 64, 128, 256, 512, 1024, 2048]

/-- Value of `mem::size_of::<ListNode>()` for the fixed-size-block allocator's
`ListNode { next: Option<&'static mut ListNode> }` on x86_64. -/
def FSB_NODE_SIZE : Nat := 8

/-- Value of `mem::align_of::<ListNode>()` for the fixed-size-block allocator's node. -/
def FSB_NODE_ALIGN : Nat := 8

/-- Model of `list_index` from src/allocator/fixed_size_block.rs:
`BLOCK_SIZES.iter().position(|&s| s >= required_block_size)`. -/
def list_index (layout : Layout) : Option Nat :=
  let required_block_size := max layout.size layout.align
  BLOCK_SIZES.findIdx? (fun s => decide (required_block_size ≤ s))

/-- State of `FixedSizeBlockAllocator`, parametric in the fallback allocator's
state type `FB` (the fallback is the external `linked_list_allocator` crate;
the spec describes it as a free-list allocator).  Each class list is the list
of block addresses reachable from `list_heads[i]`. -/
structure FixedSizeBlockAllocator (FB : Type) where
  list_heads : List (List Nat)
  fallback_allocator : FB
deriving DecidableEq

/-- Model of `GlobalAlloc::alloc` for `Locked<FixedSizeBlockAllocator>`, parametric in
the fallback allocator's `alloc` (`fb` returns pointer-or-null and post-state). -/
def fsbAlloc {FB : Type} (fb : FB → Layout → Option Nat × FB)
    (a : FixedSizeBlockAllocator FB) (layout : Layout) :
    Option Nat × FixedSizeBlockAllocator FB :=
  match list_index layout with
  | some index =>
      match a.list_heads.getD index [] with
      | node :: rest =>
          (some node, { a with list_heads := a.list_heads.set index rest })
      | [] =>
          let block_size := BLOCK_SIZES.getD index 0
          let block_align := block_size
          let r := fb a.fallback_allocator { size := block_size, align := block_align }
          (r.1, { a with fallback_allocator := r.2 })
  | none =>
      let r := fb a.fallback_allocator layout
      (r.1, { a with fallback_allocator := r.2 })

/-- Model of `GlobalAlloc::dealloc` for `Locked<FixedSizeBlockAllocator>`, parametric in
the fallback allocator's `deallocate`.  `none` models the assertion panics. -/
def fsbDealloc {FB : Type} (fbDe : FB → Nat → Layout → FB)
    (a : FixedSizeBlockAllocator FB) (ptr : Nat) (layout : Layout) :
    Option (FixedSizeBlockAllocator FB) :=
  match list_index layout with
  | some index =>
      if FSB_NODE_SIZE ≤ BLOCK_SIZES.getD index 0 ∧
          FSB_NODE_ALIGN ≤ BLOCK_SIZES.getD index 0 then
        some { a with
          list_heads := a.list_heads.set index (ptr :: a.list_heads.getD index []) }
      else none
  | none => some { a with fallback_allocator := fbDe a.fallback_allocator ptr layout }

/-! ### Arithmetic facts about `align_up` -/

/-- Clearing the low `k` bits of a `w`-bit value rounds it down to a multiple
of `2 ^ k`. -/
theorem land_two_pow_sub {x k w : Nat} (hx : x < 2 ^ w) (hk : k ≤ w) :
    x &&& (2 ^ w - 2 ^ k) = 2 ^ k * (x / 2 ^ k) := by
  have hmask : 2 ^ w - 2 ^ k = 2 ^ k * (2 ^ (w - k) - 1) := by
    rw [Nat.mul_sub_left_distrib, Nat.mul_one, ← pow_add]
    congr 2
    omega
  apply Nat.eq_of_testBit_eq
  intro i
  rw [Nat.testBit_and, hmask, Nat.testBit_mul_pow_two, Nat.testBit_mul_pow_two,
    Nat.testBit_two_pow_sub_one, ← Nat.shiftRight_eq_div_pow, Nat.testBit_shiftRight]
  rcases Nat.lt_or_ge i k with hik | hik
  · simp [Nat.not_le_of_lt hik]
  · have hki : k + (i - k) = i := by omega
    rw [hki]
    rcases Nat.lt_or_ge i w with hiw | hiw
    · simp [hik, show i - k < w - k by omega]
    · have hx2 : x < 2 ^ i :=
        lt_of_lt_of_le hx (Nat.pow_le_pow_right (by omega) hiw)
      simp [Nat.testBit_lt_two_pow hx2, show ¬(i - k < w - k) by omega]

/-- Closed form of `align_up` at a power-of-two alignment, as rounding-up division. -/
theorem align_up_eq_pow (addr : Nat) {k : Nat} (hk : k < 64) :
    align_up addr (2 ^ k) = 2 ^ k * (((addr + 2 ^ k - 1) % USIZE) / 2 ^ k) := by
  have h1 : 1 ≤ 2 ^ k := Nat.one_le_two_pow
  have hklt : 2 ^ k < 2 ^ 64 := Nat.pow_lt_pow_right (by omega) hk
  have hU : USIZE = 2 ^ 64 := rfl
  have h2 : (2 ^ k - 1) % USIZE = 2 ^ k - 1 := Nat.mod_eq_of_lt (by omega)
  have h3 : USIZE - 1 - (2 ^ k - 1) = 2 ^ 64 - 2 ^ k := by omega
  rw [align_up, usize_not, h2, h2, h3]
  exact land_two_pow_sub (hU ▸ Nat.mod_lt _ (by omega)) (by omega)

/-- The result of `align_up` at a power-of-two alignment is a multiple of it,
with no precondition: the final bitmask guarantees this even if the addition
wrapped. -/
theorem align_up_dvd (addr : Nat) {k : Nat} (hk : k < 64) :
    2 ^ k ∣ align_up addr (2 ^ k) := by
  rw [align_up_eq_pow addr hk]
  exact dvd_mul_right _ _

/-- Results of `align_up` are always below `2 ^ 64`. -/
theorem align_up_lt_usize (addr : Nat) {k : Nat} (hk : k < 64) :
    align_up addr (2 ^ k) < USIZE := by
  rw [align_up_eq_pow addr hk]
  have h1 : 2 ^ k * ((addr + 2 ^ k - 1) % USIZE / 2 ^ k) ≤ (addr + 2 ^ k - 1) % USIZE := by
    rw [Nat.mul_comm]
    exact Nat.div_mul_le_self _ _
  have h2 : (addr + 2 ^ k - 1) % USIZE < USIZE := Nat.mod_lt _ (by norm_num [USIZE])
  omega

/-- When the addition does not wrap, `align_up` is plain rounding-up division. -/
theorem align_up_no_overflow (addr : Nat) {k : Nat} (hk : k < 64)
    (h : addr + 2 ^ k - 1 < USIZE) :
    align_up addr (2 ^ k) = 2 ^ k * ((addr + 2 ^ k - 1) / 2 ^ k) := by
  rw [align_up_eq_pow addr hk, Nat.mod_eq_of_lt h]

/-- When the addition does not wrap, `align_up` rounds upwards. -/
theorem le_align_up (addr : Nat) {k : Nat} (hk : k < 64)
    (h : addr + 2 ^ k - 1 < USIZE) :
    addr ≤ align_up addr (2 ^ k) := by
  rw [align_up_no_overflow addr hk h]
  have h1 : 0 < 2 ^ k := Nat.two_pow_pos k
  have h2 := Nat.div_add_mod (addr + 2 ^ k - 1) (2 ^ k)
  have h3 : (addr + 2 ^ k - 1) % 2 ^ k < 2 ^ k := Nat.mod_lt _ h1
  omega

/-- Minimality: `align_up addr align` is the least multiple of `align` that is `≥ addr`. -/
theorem align_up_le_of_dvd (addr : Nat) {k m : Nat} (hk : k < 64)
    (h : addr + 2 ^ k - 1 < USIZE) (hdvd : 2 ^ k ∣ m) (hm : addr ≤ m) :
    align_up addr (2 ^ k) ≤ m := by
  rw [align_up_no_overflow addr hk h]
  obtain ⟨t, rfl⟩ := hdvd
  have h1 : 0 < 2 ^ k := Nat.two_pow_pos k
  have h2 : (addr + 2 ^ k - 1) / 2 ^ k ≤ t := by
    have h3 : addr + 2 ^ k - 1 < (t + 1) * 2 ^ k := by
      have h4 : (t + 1) * 2 ^ k = 2 ^ k * t + 2 ^ k := by ring
      omega
    exact Nat.lt_succ_iff.mp ((Nat.div_lt_iff_lt_mul h1).mpr h3)
  exact Nat.mul_le_mul_left _ h2

/-- Addresses that are already aligned are fixed by `align_up`. -/
theorem align_up_of_dvd {addr k : Nat} (hk : k < 64) (hdvd : 2 ^ k ∣ addr)
    (haddr : addr < USIZE) : align_up addr (2 ^ k) = addr := by
  obtain ⟨t, rfl⟩ := hdvd
  have h1 : 0 < 2 ^ k := Nat.two_pow_pos k
  have hU : USIZE = 2 ^ 64 := rfl
  have h2 : 2 ^ k * 2 ^ (64 - k) = 2 ^ 64 := by
    rw [← pow_add]
    congr 1
    omega
  have h3 : t < 2 ^ (64 - k) := by
    by_contra hc
    push_neg at hc
    have h4 : 2 ^ k * 2 ^ (64 - k) ≤ 2 ^ k * t := Nat.mul_le_mul_left _ hc
    omega
  have h5 : 2 ^ k * (t + 1) ≤ 2 ^ 64 := by
    calc 2 ^ k * (t + 1) ≤ 2 ^ k * 2 ^ (64 - k) := Nat.mul_le_mul_left _ h3
    _ = 2 ^ 64 := h2
  have h6 : 2 ^ k * (t + 1) = 2 ^ k * t + 2 ^ k := by ring
  have hov : 2 ^ k * t + 2 ^ k - 1 < USIZE := by omega
  rw [align_up_no_overflow _ hk hov]
  have h7 : 2 ^ k * t + 2 ^ k - 1 = 2 ^ k * t + (2 ^ k - 1) := by omega
  rw [h7, Nat.mul_add_div h1, Nat.div_eq_of_lt (by omega), Nat.add_zero]

/-- The maximum of two powers of two is a power of two. -/
theorem max_two_pow (a b : Nat) : max (2 ^ a) (2 ^ b) = 2 ^ max a b := by
  rcases Nat.le_total a b with h | h
  · rw [Nat.max_eq_right (Nat.pow_le_pow_right (by omega) h), Nat.max_eq_right h]
  · rw [Nat.max_eq_left (Nat.pow_le_pow_right (by omega) h), Nat.max_eq_left h]

/-! ### Characterizations of the embedded operations -/

/-- Success elimination for `checked_add`. -/
theorem checked_add_some {x y z : Nat} (h : checked_add x y = some z) :
    z = x + y ∧ x + y < USIZE := by
  unfold checked_add at h
  split_ifs at h with hc
  exact ⟨(Option.some.inj h).symm, hc⟩

/-- Closed form of `checked_add`: it succeeds exactly on non-overflowing sums. -/
theorem checked_add_eq (x y : Nat) :
    checked_add x y = if x + y < USIZE then some (x + y) else none := rfl

/-- Closed form of the bump allocator's `alloc`. -/
theorem bumpAlloc_eq (b : BumpAllocator) (layout : Layout) :
    bumpAlloc b layout =
      if align_up b.next layout.align + layout.size < USIZE ∧
          align_up b.next layout.align + layout.size ≤ b.heap_end then
        (some (align_up b.next layout.align),
         { b with next := align_up b.next layout.align + layout.size,
                  allocations := b.allocations + 1 })
      else (none, b) := by
  by_cases h1 : align_up b.next layout.align + layout.size < USIZE
  · by_cases h2 : align_up b.next layout.align + layout.size ≤ b.heap_end
    · rw [if_pos ⟨h1, h2⟩]
      simp only [bumpAlloc, checked_add, if_pos h1]
      rw [if_neg (by omega)]
    · rw [if_neg (by tauto)]
      simp only [bumpAlloc, checked_add, if_pos h1]
      rw [if_pos (by omega)]
  · rw [if_neg (by tauto)]
    simp only [bumpAlloc, checked_add, if_neg h1]

/-- Success elimination for the bump allocator's `alloc`. -/
theorem bumpAlloc_some {b : BumpAllocator} {layout : Layout} {p : Nat}
    {b1 : BumpAllocator} (h : bumpAlloc b layout = (some p, b1)) :
    p = align_up b.next layout.align ∧
    b1 = { b with next := p + layout.size, allocations := b.allocations + 1 } ∧
    p + layout.size < USIZE ∧ p + layout.size ≤ b.heap_end := by
  rw [bumpAlloc_eq] at h
  split_ifs at h with hc
  · injection h with h1 h2
    injection h1 with h1
    subst h1
    exact ⟨rfl, h2.symm, hc.1, hc.2⟩
  · simp at h

/-- Closed form of `alloc_from_region`. -/
theorem alloc_from_region_eq (r : Region) (size align : Nat) :
    alloc_from_region r size align =
      if align_up r.addr align + size < USIZE ∧
          align_up r.addr align + size ≤ r.end_addr then
        some (align_up r.addr align)
      else none := by
  by_cases h1 : align_up r.addr align + size < USIZE
  · by_cases h2 : align_up r.addr align + size ≤ r.end_addr
    · rw [if_pos ⟨h1, h2⟩]
      simp only [alloc_from_region, checked_add, if_pos h1]
      rw [if_neg (by omega)]
    · rw [if_neg (by tauto)]
      simp only [alloc_from_region, checked_add, if_pos h1]
      rw [if_pos (by omega)]
  · rw [if_neg (by tauto)]
    simp only [alloc_from_region, checked_add, if_neg h1]

/-- Success of `find_region` yields a first-fit decomposition of the list. -/
theorem find_region_some {l : List Region} {size align : Nat} {r : Region}
    {s : Nat} {l2 : List Region}
    (h : find_region l size align = some (r, s, l2)) :
    ∃ pre post, l = pre ++ r :: post ∧ l2 = pre ++ post ∧
      (∀ x ∈ pre, alloc_from_region x size align = none) ∧
      alloc_from_region r size align = some s := by
  induction l generalizing l2 with
  | nil => cases h
  | cons a rest ih =>
      rw [find_region] at h
      cases ha : alloc_from_region a size align with
      | some st =>
          rw [ha] at h
          injection h with h1
          injection h1 with hra h2
          injection h2 with hs hl2
          subst hra; subst hs; subst hl2
          exact ⟨[], rest, rfl, rfl, by simp, ha⟩
      | none =>
          rw [ha] at h
          cases hf : find_region rest size align with
          | none => rw [hf] at h; cases h
          | some x =>
              obtain ⟨xr, xs2, xl⟩ := x
              rw [hf] at h
              injection h with h1
              injection h1 with hra h2
              injection h2 with hs hl2
              subst hra
              subst hs
              obtain ⟨pre, post, e1, e2, e3, e4⟩ := ih hf
              refine ⟨a :: pre, post, ?_, ?_, ?_, e4⟩
              · rw [e1]; simp
              · rw [← hl2, e2]; simp
              · intro y hy
                rcases List.mem_cons.mp hy with rfl | hy
                · exact ha
                · exact e3 y hy

/-- Failure of `find_region` means no region in the list is suitable. -/
theorem find_region_none {l : List Region} {size align : Nat}
    (h : find_region l size align = none) :
    ∀ x ∈ l, alloc_from_region x size align = none := by
  induction l with
  | nil => simp
  | cons a rest ih =>
      rw [find_region] at h
      cases ha : alloc_from_region a size align with
      | some st => rw [ha] at h; cases h
      | none =>
          rw [ha] at h
          cases hf : find_region rest size align with
          | some x => rw [hf] at h; cases h
          | none =>
              intro x hx
              rcases List.mem_cons.mp hx with rfl | hx
              · exact ha
              · exact ih hf x hx

/-- Success elimination for `alloc_from_region`. -/
theorem alloc_from_region_some {r : Region} {size align s : Nat}
    (h : alloc_from_region r size align = some s) :
    s = align_up r.addr align ∧ align_up r.addr align + size < USIZE ∧
      align_up r.addr align + size ≤ r.end_addr := by
  rw [alloc_from_region_eq] at h
  split_ifs at h with hc
  exact ⟨(Option.some.inj h).symm, hc.1, hc.2⟩

/-- The adjusted alignment produced by `size_align` is the power of two
`max align (2^3)`. -/
theorem size_align_align {layout : Layout} {k : Nat} (h : layout.align = 2 ^ k) :
    (size_align layout).2 = 2 ^ max k 3 := by
  simp only [size_align, h, LL_NODE_ALIGN]
  rw [show (8 : Nat) = 2 ^ 3 by norm_num, max_two_pow]

/-- The adjusted size produced by `size_align` can hold a free-list node. -/
theorem size_align_size_ge (layout : Layout) : LL_NODE_SIZE ≤ (size_align layout).1 :=
  le_max_right _ _

/-- Successful (non-null, non-panicking) `llAlloc` comes from a successful
`find_region` at the adjusted layout, with no overflow past the allocation. -/
theorem llAlloc_some_elim {l : List Region} {layout : Layout} {p : Nat}
    {l1 : List Region} (h : llAlloc l layout = some (some p, l1)) :
    ∃ r rest, find_region l (size_align layout).1 (size_align layout).2 =
        some (r, p, rest) ∧ p + (size_align layout).1 < USIZE := by
  simp only [llAlloc] at h
  split at h
  next x heq =>
    obtain ⟨xr, xs2, xl⟩ := x
    split at h
    next hca => cases h
    next ae hca =>
      obtain ⟨hae, hlt⟩ := checked_add_some hca
      split at h
      · split at h
        next l3 hadd =>
          injection h with h1
          injection h1 with h2 h3
          injection h2 with h2
          subst h2
          exact ⟨xr, xl, heq, by omega⟩
        next hadd => cases h
      · injection h with h1
        injection h1 with h2 h3
        injection h2 with h2
        subst h2
        exact ⟨xr, xl, heq, by omega⟩
  next heq =>
    injection h with h1
    injection h1 with h2 h3
    cases h2

/-- A null (but non-panicking) `llAlloc` leaves the list unchanged and can
only come from an exhausted `find_region`. -/
theorem llAlloc_none_elim {l : List Region} {layout : Layout} {l1 : List Region}
    (h : llAlloc l layout = some (none, l1)) :
    l1 = l ∧ find_region l (size_align layout).1 (size_align layout).2 = none := by
  simp only [llAlloc] at h
  split at h
  next x heq =>
    obtain ⟨xr, xs2, xl⟩ := x
    split at h
    next hca => cases h
    next ae hca =>
      split at h
      · split at h
        next l3 hadd =>
          injection h with h1
          injection h1 with h2 h3
          cases h2
        next hadd => cases h
      · injection h with h1
        injection h1 with h2 h3
        cases h2
  next heq =>
    injection h with h1
    injection h1 with h2 h3
    exact ⟨h3.symm, heq⟩

/-- Reading `getD` below the length is plain indexing. -/
theorem getD_lt_eq {α : Type} {l : List α} {i : Nat} {d : α} (h : i < l.length) :
    l.getD i d = l[i] := by
  rw [List.getD_eq_getElem?_getD, List.getElem?_eq_getElem h]
  rfl

/-- Characterization of `list_index`: it returns the index of the first block size that fits the
larger of the layout's size and alignment. -/
theorem list_index_some_iff (layout : Layout) (i : Nat) :
    list_index layout = some i ↔
      i < BLOCK_SIZES.length ∧
        max layout.size layout.align ≤ BLOCK_SIZES.getD i 0 ∧
        ∀ j, j < i → BLOCK_SIZES.getD j 0 < max layout.size layout.align := by
  simp only [list_index]
  rw [List.findIdx?_eq_some_iff_getElem]
  constructor
  · rintro ⟨hi, hp, hj⟩
    refine ⟨hi, ?_, ?_⟩
    · rw [getD_lt_eq hi]
      exact of_decide_eq_true hp
    · intro j hji
      have hjl : j < BLOCK_SIZES.length := lt_trans hji hi
      have h2 := hj j hji
      rw [getD_lt_eq hjl]
      simp only [decide_eq_true_eq] at h2
      omega
  · rintro ⟨hi, hle, hlt⟩
    refine ⟨hi, ?_, ?_⟩
    · rw [getD_lt_eq hi] at hle
      exact decide_eq_true hle
    · intro j hji
      have hjl : j < BLOCK_SIZES.length := lt_trans hji hi
      have h2 := hlt j hji
      rw [getD_lt_eq hjl] at h2
      simp only [Bool.not_eq_true, decide_eq_false_iff_not]
      omega

/-- Failure of `list_index` happens exactly for requests above the largest class. -/
theorem list_index_none_iff (layout : Layout) :
    list_index layout = none ↔ 2048 < max layout.size layout.align := by
  simp only [list_index, List.findIdx?_eq_none_iff]
  constructor
  · intro h
    have h2 := h 2048 (by decide)
    simp only [decide_eq_false_iff_not] at h2
    omega
  · intro h x hx
    have hx2048 : x ≤ 2048 := by
      have hall : ∀ y ∈ BLOCK_SIZES, y ≤ 2048 := by decide
      exact hall x hx
    simp only [decide_eq_false_iff_not]
    omega

/-- Every block size in the table is the power of two `2 ^ (3 + i)`. -/
theorem block_sizes_pow (i : Nat) (h : i < 9) :
    BLOCK_SIZES.getD i 0 = 2 ^ (3 + i) := by
  revert h
  revert i
  decide

/-! ### Claims -/

/-- C8: for every address `addr` and power-of-two alignment `2 ^ k`
representable in usize such that `addr + align - 1` does not overflow the
address width, `align_up addr align = (addr + align - 1) & !(align - 1)` is
the smallest multiple of `align` that is ≥ `addr`. -/
theorem C8_align_up_least_multiple (addr k : Nat) (halign : 2 ^ k < USIZE)
    (h : addr + 2 ^ k - 1 < USIZE) :
    2 ^ k ∣ align_up addr (2 ^ k) ∧ addr ≤ align_up addr (2 ^ k) ∧
      ∀ m, 2 ^ k ∣ m → addr ≤ m → align_up addr (2 ^ k) ≤ m := by
  have hk : k < 64 := by
    have hU : USIZE = 2 ^ 64 := rfl
    rw [hU] at halign
    exact (Nat.pow_lt_pow_iff_right (by omega)).mp halign
  exact ⟨align_up_dvd addr hk, le_align_up addr hk h,
    fun m hd hm => align_up_le_of_dvd addr hk h hd hm⟩

/-- Witness for C8 at `addr = 5`, `align = 8`: the result divides by 8, is
at least 5, and is at most the multiple 8. -/
theorem C8_align_up_least_multiple_witness :
    2 ^ 3 ∣ align_up 5 (2 ^ 3) ∧ 5 ≤ align_up 5 (2 ^ 3) ∧ align_up 5 (2 ^ 3) ≤ 8 := by
  obtain ⟨h1, h2, h3⟩ := C8_align_up_least_multiple 5 3 (by decide) (by decide)
  exact ⟨h1, h2, h3 8 ⟨1, by decide⟩ (by decide)⟩

/-- C4: the bump allocator's `alloc` computes `alloc_start = align_up (next,
align)` and `alloc_end` by checked addition, returns the null sentinel exactly
when the addition overflows or `alloc_end > heap_end`, and otherwise sets
`next = alloc_end`, increments `allocations`, and returns `alloc_start`. -/
theorem C4_bump_alloc_spec (b : BumpAllocator) (layout : Layout) :
    ((bumpAlloc b layout).1 = none ↔
      USIZE ≤ align_up b.next layout.align + layout.size ∨
        b.heap_end < align_up b.next layout.align + layout.size) ∧
    (align_up b.next layout.align + layout.size < USIZE →
      align_up b.next layout.align + layout.size ≤ b.heap_end →
      bumpAlloc b layout =
        (some (align_up b.next layout.align),
         { b with next := align_up b.next layout.align + layout.size,
                  allocations := b.allocations + 1 })) := by
  constructor
  · rw [bumpAlloc_eq]
    split_ifs with hc
    · simp
      omega
    · simp
      omega
  · intro h1 h2
    rw [bumpAlloc_eq, if_pos ⟨h1, h2⟩]

/-- Witness for C4 on an initialized allocator and the layout (8, 2). -/
theorem C4_bump_alloc_spec_witness :
    bumpAlloc (BumpAllocator.new.init 64 64) { size := 8, align := 2 } =
      (some 64,
       { BumpAllocator.new.init 64 64 with next := 72, allocations := 1 }) := by
  have h := (C4_bump_alloc_spec (BumpAllocator.new.init 64 64)
    { size := 8, align := 2 }).2 (by decide) (by decide)
  rw [h]
  rfl

/-- C9 (implicit): failure atomicity — a null return from `alloc` leaves the
allocator state exactly as before the call, for the bump allocator and the
free-list allocator. -/
theorem C9_failure_atomicity :
    (∀ (b : BumpAllocator) (layout : Layout) (b2 : BumpAllocator),
      bumpAlloc b layout = (none, b2) → b2 = b) ∧
    (∀ (l : List Region) (layout : Layout) (l2 : List Region),
      llAlloc l layout = some (none, l2) → l2 = l) := by
  constructor
  · intro b layout b2 h
    rw [bumpAlloc_eq] at h
    split_ifs at h with hc
    · injection h with h1 h2
      cases h1
    · injection h with h1 h2
      exact h2.symm
  · intro l layout l2 h
    exact (llAlloc_none_elim h).1

/-- Witness for C9: a failing bump `alloc` and a failing free-list `alloc`
(on an exhausted allocator) both leave the state unchanged. -/
theorem C9_failure_atomicity_witness :
    BumpAllocator.new = BumpAllocator.new ∧ ([] : List Region) = [] := by
  constructor
  · exact C9_failure_atomicity.1 BumpAllocator.new { size := 1, align := 1 }
      BumpAllocator.new (by decide)
  · exact C9_failure_atomicity.2 [] { size := 1, align := 1 } [] (by decide)

/-- C1 (refuted — code bug): `alloc_from_region` omits the excess-size check
its own comment describes, so `alloc` can hand `add_free_region` a leftover
smaller than a node header.  On the initialized heap: alloc (24, 8), dealloc
it, then alloc (16, 8).  The second alloc selects the freed 24-byte region,
leaves an 8-byte excess, and `add_free_region`'s
`assert!(size >= mem::size_of::<ListNode>())` fails: `alloc` panics (modelled
as the outer `none`) instead of satisfying the asserted preconditions. -/
theorem C1_alloc_panics_on_small_leftover :
    add_free_region [] HEAP_START HEAP_SIZE = some [⟨HEAP_START, HEAP_SIZE⟩] ∧
    llAlloc [⟨HEAP_START, HEAP_SIZE⟩] { size := 24, align := 8 } =
      some (some HEAP_START, [⟨HEAP_START + 24, HEAP_SIZE - 24⟩]) ∧
    llDealloc [⟨HEAP_START + 24, HEAP_SIZE - 24⟩] HEAP_START { size := 24, align := 8 } =
      some [⟨HEAP_START, 24⟩, ⟨HEAP_START + 24, HEAP_SIZE - 24⟩] ∧
    llAlloc [⟨HEAP_START, 24⟩, ⟨HEAP_START + 24, HEAP_SIZE - 24⟩]
      { size := 16, align := 8 } = none := by
  exact ⟨by decide, by decide, by decide, by decide⟩

/-- C10 (implicit): whenever `list_index` selects a class `i`, the dealloc
assertions `size_of::<ListNode>() ≤ BLOCK_SIZES[i]` and
`align_of::<ListNode>() ≤ BLOCK_SIZES[i]` hold, so deallocating into a size
class never panics on these checks. -/
theorem C10_fsb_dealloc_asserts_hold (layout : Layout) (i : Nat)
    (h : list_index layout = some i) :
    (FSB_NODE_SIZE ≤ BLOCK_SIZES.getD i 0 ∧ FSB_NODE_ALIGN ≤ BLOCK_SIZES.getD i 0) ∧
    ∀ (FB : Type) (fbDe : FB → Nat → Layout → FB)
      (a : FixedSizeBlockAllocator FB) (ptr : Nat),
      fsbDealloc fbDe a ptr layout ≠ none := by
  have hi : i < BLOCK_SIZES.length := ((list_index_some_iff layout i).mp h).1
  have hall : ∀ j, j < 9 → 8 ≤ BLOCK_SIZES.getD j 0 := by decide
  have h8 : 8 ≤ BLOCK_SIZES.getD i 0 := hall i (by simpa using hi)
  refine ⟨⟨h8, h8⟩, ?_⟩
  intro FB fbDe a ptr
  simp only [fsbDealloc, h]
  split_ifs with hc
  · simp
  · exact absurd ⟨h8, h8⟩ hc

/-- Witness for C10 at layout (16, 8), class index 1. -/
theorem C10_fsb_dealloc_asserts_hold_witness :
    FSB_NODE_SIZE ≤ BLOCK_SIZES.getD 1 0 ∧ FSB_NODE_ALIGN ≤ BLOCK_SIZES.getD 1 0 :=
  (C10_fsb_dealloc_asserts_hold { size := 16, align := 8 } 1 (by decide)).1

/-- C6: `list_index` returns the index of the first table entry at least
`max (size, align)` (none above 2048), and `alloc` pops the head of a
non-empty class list, allocates a fresh `(class_size, class_size)` block from
the fallback when the class list is empty, and delegates the original layout
to the fallback when no class fits. -/
theorem C6_fsb_alloc_routing :
    (∀ (layout : Layout) (i : Nat), list_index layout = some i ↔
      i < BLOCK_SIZES.length ∧
        max layout.size layout.align ≤ BLOCK_SIZES.getD i 0 ∧
        ∀ j, j < i → BLOCK_SIZES.getD j 0 < max layout.size layout.align) ∧
    (∀ layout : Layout, list_index layout = none ↔
      2048 < max layout.size layout.align) ∧
    (∀ (FB : Type) (fb : FB → Layout → Option Nat × FB)
        (a : FixedSizeBlockAllocator FB) (layout : Layout) (i node : Nat)
        (rest : List Nat),
      list_index layout = some i → a.list_heads.getD i [] = node :: rest →
      fsbAlloc fb a layout =
        (some node, { a with list_heads := a.list_heads.set i rest })) ∧
    (∀ (FB : Type) (fb : FB → Layout → Option Nat × FB)
        (a : FixedSizeBlockAllocator FB) (layout : Layout) (i : Nat),
      list_index layout = some i → a.list_heads.getD i [] = [] →
      fsbAlloc fb a layout =
        ((fb a.fallback_allocator
            { size := BLOCK_SIZES.getD i 0, align := BLOCK_SIZES.getD i 0 }).1,
         { a with fallback_allocator :=
            (fb a.fallback_allocator
              { size := BLOCK_SIZES.getD i 0, align := BLOCK_SIZES.getD i 0 }).2 })) ∧
    (∀ (FB : Type) (fb : FB → Layout → Option Nat × FB)
        (a : FixedSizeBlockAllocator FB) (layout : Layout),
      list_index layout = none →
      fsbAlloc fb a layout =
        ((fb a.fallback_allocator layout).1,
         { a with fallback_allocator := (fb a.fallback_allocator layout).2 })) := by
  refine ⟨list_index_some_iff, list_index_none_iff, ?_, ?_, ?_⟩
  · intro FB fb a layout i node rest h hl
    simp only [fsbAlloc, h, hl]
  · intro FB fb a layout i h hl
    simp only [fsbAlloc, h, hl]
  · intro FB fb a layout h
    simp only [fsbAlloc, h]

/-- Witness for C6: popping the head of class 1 on a concrete allocator. -/
theorem C6_fsb_alloc_routing_witness :
    fsbAlloc (fun (u : Unit) (_ : Layout) => (none, u))
      { list_heads := [[], [100], [], [], [], [], [], [], []],
        fallback_allocator := () } { size := 16, align := 16 } =
      (some 100,
       { list_heads := [[], [], [], [], [], [], [], [], []],
         fallback_allocator := () }) := by
  have h := C6_fsb_alloc_routing.2.2.1 Unit (fun u _ => (none, u))
    { list_heads := [[], [100], [], [], [], [], [], [], []], fallback_allocator := () }
    { size := 16, align := 16 } 1 100 [] (by decide) rfl
  rw [h]
  rfl

/-- C3: `find_region` returns the first node in list order for which
`alloc_from_region` succeeds (no overflow and `alloc_end` within the node),
unlinks exactly that node, and returns it with
`alloc_start = align_up (node.start, align)`; if no node is suitable it
returns `none` (the caller's list is then left unchanged, see C9). -/
theorem C3_find_region_first_fit (l : List Region) (size align : Nat) :
    (∀ (r : Region) (s : Nat) (l2 : List Region),
      find_region l size align = some (r, s, l2) →
      s = align_up r.addr align ∧
      ∃ pre post, l = pre ++ r :: post ∧ l2 = pre ++ post ∧
        (∀ x ∈ pre, alloc_from_region x size align = none) ∧
        alloc_from_region r size align = some s) ∧
    (find_region l size align = none →
      ∀ x ∈ l, alloc_from_region x size align = none) ∧
    (∀ (r : Region) (s : Nat), alloc_from_region r size align = some s ↔
      s = align_up r.addr align ∧ align_up r.addr align + size < USIZE ∧
        align_up r.addr align + size ≤ r.end_addr) := by
  refine ⟨?_, fun h => find_region_none h, ?_⟩
  · intro r s l2 h
    obtain ⟨pre, post, e1, e2, e3, e4⟩ := find_region_some h
    exact ⟨(alloc_from_region_some e4).1, pre, post, e1, e2, e3, e4⟩
  · intro r s
    constructor
    · exact alloc_from_region_some
    · rintro ⟨hs, h1, h2⟩
      rw [alloc_from_region_eq, if_pos ⟨h1, h2⟩, hs]

/-- Witness for C3: the suitability criterion instantiated on a concrete
region and request. -/
theorem C3_find_region_first_fit_witness :
    alloc_from_region ⟨64, 32⟩ 24 8 = some 64 ↔
      64 = align_up (Region.mk 64 32).addr 8 ∧
        align_up (Region.mk 64 32).addr 8 + 24 < USIZE ∧
        align_up (Region.mk 64 32).addr 8 + 24 ≤ (Region.mk 64 32).end_addr :=
  (C3_find_region_first_fit [⟨64, 32⟩] 24 8).2.2 ⟨64, 32⟩ 64

/-- C2: for every layout whose alignment is a power of two, every non-null
address returned by `alloc` is a multiple of that alignment — for the bump
allocator, the free-list allocator, and the fixed-size-block allocator (the
latter under the invariant that class-list blocks are class-aligned and a
fallback whose results respect the requested alignment). -/
theorem C2_alloc_alignment :
    (∀ (b : BumpAllocator) (layout : Layout) (k p : Nat) (b2 : BumpAllocator),
      layout.align = 2 ^ k → k < 64 →
      bumpAlloc b layout = (some p, b2) → layout.align ∣ p) ∧
    (∀ (l : List Region) (layout : Layout) (k p : Nat) (l2 : List Region),
      layout.align = 2 ^ k → k < 64 →
      llAlloc l layout = some (some p, l2) → layout.align ∣ p) ∧
    (∀ (FB : Type) (fb : FB → Layout → Option Nat × FB),
      (∀ (s : FB) (layout : Layout) (k p : Nat) (s2 : FB),
        layout.align = 2 ^ k → k < 64 →
        fb s layout = (some p, s2) → layout.align ∣ p) →
      ∀ (a : FixedSizeBlockAllocator FB),
        (∀ i, i < BLOCK_SIZES.length →
          ∀ p ∈ a.list_heads.getD i [], BLOCK_SIZES.getD i 0 ∣ p) →
        ∀ (layout : Layout) (k p : Nat) (a2 : FixedSizeBlockAllocator FB),
          layout.align = 2 ^ k → k < 64 →
          fsbAlloc fb a layout = (some p, a2) → layout.align ∣ p) := by
  refine ⟨?_, ?_, ?_⟩
  · intro b layout k p b2 halign hk h
    obtain ⟨hp, _, _, _⟩ := bumpAlloc_some h
    rw [hp, halign]
    exact align_up_dvd _ hk
  · intro l layout k p l2 halign hk h
    obtain ⟨r, rest, hf, _⟩ := llAlloc_some_elim h
    obtain ⟨pre, post, _, _, _, e4⟩ := find_region_some hf
    have hp := (alloc_from_region_some e4).1
    rw [hp, size_align_align halign, halign]
    exact dvd_trans (pow_dvd_pow 2 (le_max_left k 3)) (align_up_dvd _ (by omega))
  · intro FB fb hfb a hinv layout k p a2 halign hk h
    cases hli : list_index layout with
    | none =>
        simp only [fsbAlloc, hli] at h
        injection h with h1 h2
        have hfbe : fb a.fallback_allocator layout =
            (some p, (fb a.fallback_allocator layout).2) := by
          rw [← h1]
        exact hfb _ _ k p _ halign hk hfbe
    | some i =>
        have hspec := (list_index_some_iff layout i).mp hli
        have hi9 : i < 9 := by simpa using hspec.1
        have hBS : BLOCK_SIZES.getD i 0 = 2 ^ (3 + i) := block_sizes_pow i hi9
        have hk3i : k ≤ 3 + i := by
          have h1 : (2 : Nat) ^ k ≤ 2 ^ (3 + i) := by
            rw [← hBS]
            calc (2 : Nat) ^ k = layout.align := halign.symm
            _ ≤ max layout.size layout.align := le_max_right _ _
            _ ≤ BLOCK_SIZES.getD i 0 := hspec.2.1
          exact (Nat.pow_le_pow_iff_right (by omega)).mp h1
        simp only [fsbAlloc, hli] at h
        split at h
        next node rest hl =>
          injection h with h1 h2
          have hpn : p = node := (Option.some.inj h1).symm
          have hdvd : BLOCK_SIZES.getD i 0 ∣ p := by
            rw [hpn]
            exact hinv i hspec.1 node (by rw [hl]; exact List.mem_cons_self _ _)
          rw [halign]
          exact dvd_trans (hBS ▸ pow_dvd_pow 2 hk3i) hdvd
        next hl =>
          injection h with h1 h2
          have hfbe : fb a.fallback_allocator
              { size := BLOCK_SIZES.getD i 0, align := BLOCK_SIZES.getD i 0 } =
              (some p, (fb a.fallback_allocator
                { size := BLOCK_SIZES.getD i 0, align := BLOCK_SIZES.getD i 0 }).2) := by
            rw [← h1]
          have hdvd : (2 : Nat) ^ (3 + i) ∣ p :=
            hBS ▸ hfb _ _ (3 + i) p _ (by exact hBS) (by omega) hfbe
          rw [halign]
          exact dvd_trans (pow_dvd_pow 2 hk3i) hdvd

/-- Witness for C2: each allocator variant yields an aligned pointer on a
concrete request. -/
theorem C2_alloc_alignment_witness :
    (Layout.mk 4 2).align ∣ 64 ∧ (Layout.mk 16 8).align ∣ 64 ∧
      (Layout.mk 8 8).align ∣ 0 := by
  refine ⟨?_, ?_, ?_⟩
  · exact C2_alloc_alignment.1 (BumpAllocator.new.init 63 64) (Layout.mk 4 2) 1 64
      { BumpAllocator.new.init 63 64 with next := 68, allocations := 1 }
      rfl (by decide) (by decide)
  · exact C2_alloc_alignment.2.1 [⟨64, 160⟩] (Layout.mk 16 8) 3 64 [⟨80, 144⟩]
      rfl (by decide) (by decide)
  · exact C2_alloc_alignment.2.2 Unit (fun u _ => (some 0, u))
      (by
        intro s layout k p s2 h1 h2 h3
        injection h3 with h4 h5
        exact (Option.some.inj h4) ▸ dvd_zero _)
      { list_heads := [[], [], [], [], [], [], [], [], []], fallback_allocator := () }
      (by
        intro i hi p hp
        have hg : ([[], [], [], [], [], [], [], [], []] :
            List (List Nat)).getD i [] = [] := by
          have h9 : i < 9 := by simpa using hi
          interval_cases i <;> rfl
        rw [hg] at hp
        cases hp)
      (Layout.mk 8 8) 3 0
      { list_heads := [[], [], [], [], [], [], [], [], []], fallback_allocator := () }
      rfl (by decide) rfl

/-- A run of successful bump allocations preserves the heap bounds and adds
its length to the outstanding-allocation counter. -/
theorem bumpAllocMany_some {b : BumpAllocator} {ls : List Layout}
    {b2 : BumpAllocator} (h : bumpAllocMany b ls = some b2) :
    b2.heap_start = b.heap_start ∧ b2.heap_end = b.heap_end ∧
      b2.allocations = b.allocations + ls.length := by
  induction ls generalizing b with
  | nil =>
      injection h with h1
      subst h1
      simp
  | cons layout rest ih =>
      simp only [bumpAllocMany] at h
      split at h
      next q b1 hb =>
        obtain ⟨e1, e2, e3⟩ := ih h
        obtain ⟨hq, hb1, _, _⟩ := bumpAlloc_some hb
        subst hb1
        simp only at e1 e2 e3
        refine ⟨e1, e2, ?_⟩
        simp only [List.length_cons]
        omega
      next b1 hb => cases h

/-- A single bump `dealloc` preserves the heap bounds. -/
theorem bumpDealloc_heap (b : BumpAllocator) (q : Nat) (lay : Layout) :
    (bumpDealloc b q lay).heap_start = b.heap_start ∧
    (bumpDealloc b q lay).heap_end = b.heap_end := by
  simp only [bumpDealloc]
  split_ifs <;> exact ⟨rfl, rfl⟩

/-- Deallocating exactly as many times as there are outstanding allocations
resets `next` to `heap_start` and the counter to zero, whatever the pointer
and layout arguments. -/
theorem bumpDeallocMany_reset {ps : List (Nat × Layout)} :
    ∀ {b : BumpAllocator}, b.allocations = ps.length → ps ≠ [] →
    bumpDeallocMany b ps = { b with next := b.heap_start, allocations := 0 } := by
  induction ps with
  | nil => intro b h hne; exact absurd rfl hne
  | cons q rest ih =>
      intro b h hne
      show bumpDeallocMany (bumpDealloc b q.1 q.2) rest = _
      rcases eq_or_ne rest [] with rfl | hr
      · have h1 : b.allocations = 1 := by simpa using h
        show bumpDealloc b q.1 q.2 = _
        simp only [bumpDealloc]
        rw [if_pos (by simp [h1])]
        simp [h1]
      · have hlen : b.allocations - 1 = rest.length := by
          simp only [List.length_cons] at h
          omega
        have hnz : b.allocations - 1 ≠ 0 := by
          have : rest.length ≠ 0 := fun hc => hr (List.length_eq_zero.mp hc)
          omega
        have h1 : bumpDealloc b q.1 q.2 =
            { b with allocations := b.allocations - 1 } := by
          simp only [bumpDealloc]
          rw [if_neg (by simpa using hnz)]
        rw [h1, ih (by simpa using hlen) hr]

/-- C5: on the initialized bump allocator, after `k` successful allocations
followed by `k` deallocations (any pointers/layouts, any order), `next` is
back at `heap_start`, the counter is zero, and an allocation of the whole
heap `(heap_size, 1)` succeeds. -/
theorem C5_bump_reset (hs hz : Nat) (ls : List Layout) (ps : List (Nat × Layout))
    (b2 : BumpAllocator) (hU : hs + hz < USIZE) (hlen : ps.length = ls.length)
    (h : bumpAllocMany (BumpAllocator.new.init hs hz) ls = some b2) :
    (bumpDeallocMany b2 ps).next = hs ∧
    (bumpDeallocMany b2 ps).allocations = 0 ∧
    ∃ p, (bumpAlloc (bumpDeallocMany b2 ps) { size := hz, align := 1 }).1 = some p := by
  obtain ⟨e1, e2, e3⟩ := bumpAllocMany_some h
  simp only [BumpAllocator.new, BumpAllocator.init] at e1 e2 e3
  have hres : bumpDeallocMany b2 ps = { b2 with next := hs, allocations := 0 } := by
    rcases eq_or_ne ps [] with rfl | hne
    · have hls : ls = [] := List.length_eq_zero.mp hlen.symm
      subst hls
      injection h with hb2
      subst hb2
      rfl
    · rw [bumpDeallocMany_reset (by omega) hne, e1]
  have hnext : (bumpDeallocMany b2 ps).next = hs := by rw [hres]
  have halloc : (bumpDeallocMany b2 ps).allocations = 0 := by rw [hres]
  have hend : (bumpDeallocMany b2 ps).heap_end = hs + hz := by rw [hres]; exact e2
  refine ⟨hnext, halloc, align_up (bumpDeallocMany b2 ps).next 1, ?_⟩
  have ha : align_up (bumpDeallocMany b2 ps).next 1 = hs := by
    rw [hnext]
    have h0 : align_up hs (2 ^ 0) = hs :=
      align_up_of_dvd (by omega) (one_dvd hs) (by omega)
    simpa using h0
  rw [bumpAlloc_eq, if_pos ⟨by simp only [ha]; omega, by simp only [ha, hend]; omega⟩]

/-- Witness for C5: one allocation and one deallocation on a 32-byte heap. -/
theorem C5_bump_reset_witness :
    (bumpDeallocMany ⟨16, 48, 24, 1⟩ [(16, Layout.mk 8 1)]).next = 16 ∧
    (bumpDeallocMany ⟨16, 48, 24, 1⟩ [(16, Layout.mk 8 1)]).allocations = 0 ∧
    ∃ p, (bumpAlloc (bumpDeallocMany ⟨16, 48, 24, 1⟩ [(16, Layout.mk 8 1)])
      { size := 32, align := 1 }).1 = some p :=
  C5_bump_reset 16 32 [Layout.mk 8 1] [(16, Layout.mk 8 1)] ⟨16, 48, 24, 1⟩
    (by decide) (by decide) (by decide)

/-- Setting then reading the same in-range index of a list. -/
theorem getD_set_self {α : Type} {l : List α} {i : Nat} {x d : α}
    (h : i < l.length) : (l.set i x).getD i d = x := by
  rw [List.getD_eq_getElem?_getD, List.getElem?_set_self h]
  rfl

/-- Running `llAlloc` on a list whose head region exactly fits the adjusted layout
pops that head and returns its address, leaving the tail. -/
theorem llAlloc_exact_fit {layout : Layout} {p : Nat} {l1 : List Region}
    (hstart : align_up p (size_align layout).2 = p)
    (hbound : p + (size_align layout).1 < USIZE) :
    llAlloc ({ addr := p, size := (size_align layout).1 } :: l1) layout =
      some (some p, l1) := by
  have hcond : align_up (Region.mk p (size_align layout).1).addr
        (size_align layout).2 + (size_align layout).1 < USIZE ∧
      align_up (Region.mk p (size_align layout).1).addr
        (size_align layout).2 + (size_align layout).1 ≤
        (Region.mk p (size_align layout).1).end_addr := by
    constructor
    · show align_up p (size_align layout).2 + (size_align layout).1 < USIZE
      rw [hstart]
      exact hbound
    · show align_up p (size_align layout).2 + (size_align layout).1 ≤
        p + (size_align layout).1
      rw [hstart]
  have hafr : alloc_from_region (Region.mk p (size_align layout).1)
      (size_align layout).1 (size_align layout).2 = some p := by
    rw [alloc_from_region_eq, if_pos hcond]
    show some (align_up p (size_align layout).2) = some p
    rw [hstart]
  have hfr : find_region (Region.mk p (size_align layout).1 :: l1)
      (size_align layout).1 (size_align layout).2 =
      some (Region.mk p (size_align layout).1, p, l1) := by
    simp only [find_region, hafr]
  have hca : checked_add p (size_align layout).1 =
      some (p + (size_align layout).1) := by
    rw [checked_add_eq, if_pos hbound]
  simp only [llAlloc, hfr, hca]
  rw [if_neg (show ¬0 < (Region.mk p (size_align layout).1).end_addr -
      (p + (size_align layout).1) by
    show ¬0 < p + (size_align layout).1 - (p + (size_align layout).1)
    omega)]

/-- C7: round trip.  For the free-list allocator and for the fixed-size-block
allocator with a fitting class, if `alloc` returns a pointer then after
`dealloc` of that pointer a second `alloc` of the same layout succeeds and
returns the same address: the freed region/block sits at the front of its
list and is the first candidate reused. -/
theorem C7_round_trip :
    (∀ (l : List Region) (layout : Layout) (k p : Nat) (l1 : List Region),
      layout.align = 2 ^ k → k < 64 →
      llAlloc l layout = some (some p, l1) →
      llDealloc l1 p layout =
          some ({ addr := p, size := (size_align layout).1 } :: l1) ∧
        llAlloc ({ addr := p, size := (size_align layout).1 } :: l1) layout =
          some (some p, l1)) ∧
    (∀ (FB : Type) (fb : FB → Layout → Option Nat × FB)
        (fbDe : FB → Nat → Layout → FB) (a : FixedSizeBlockAllocator FB)
        (layout : Layout) (i p : Nat) (a1 : FixedSizeBlockAllocator FB),
      list_index layout = some i → i < a.list_heads.length →
      fsbAlloc fb a layout = (some p, a1) →
      ∃ a2, fsbDealloc fbDe a1 p layout = some a2 ∧
        (fsbAlloc fb a2 layout).1 = some p) := by
  constructor
  · intro l layout k p l1 halign hk h
    obtain ⟨r, rest, hf, hbound⟩ := llAlloc_some_elim h
    obtain ⟨pre, post, _, _, _, e4⟩ := find_region_some hf
    have hp := (alloc_from_region_some e4).1
    have hm : max k 3 < 64 := by omega
    have hsa2 := size_align_align halign
    have hdvd : 2 ^ max k 3 ∣ p := by
      rw [hp, hsa2]
      exact align_up_dvd _ hm
    have hplt : p < USIZE := by
      rw [hp, hsa2]
      exact align_up_lt_usize _ hm
    have hstart : align_up p (size_align layout).2 = p := by
      rw [hsa2]
      exact align_up_of_dvd hm hdvd hplt
    have h8 : align_up p LL_NODE_ALIGN = p := by
      have h3 : align_up p (2 ^ 3) = p :=
        align_up_of_dvd (by omega)
          (dvd_trans (pow_dvd_pow 2 (le_max_right k 3)) hdvd) hplt
      exact h3
    constructor
    · unfold llDealloc add_free_region
      rw [if_pos ⟨h8, size_align_size_ge layout⟩]
    · exact llAlloc_exact_fit hstart hbound
  · intro FB fb fbDe a layout i p a1 hli hilen hfsb
    have hi9 : i < 9 := by simpa using ((list_index_some_iff layout i).mp hli).1
    have hall : ∀ j, j < 9 → 8 ≤ BLOCK_SIZES.getD j 0 := by decide
    have h8 : 8 ≤ BLOCK_SIZES.getD i 0 := hall i hi9
    have hlen1 : a1.list_heads.length = a.list_heads.length := by
      simp only [fsbAlloc, hli] at hfsb
      split at hfsb
      next node rest hl =>
        injection hfsb with h1 h2
        rw [← h2]
        simp
      next hl =>
        injection hfsb with h1 h2
        rw [← h2]
    refine ⟨{ a1 with
        list_heads := a1.list_heads.set i (p :: a1.list_heads.getD i []) }, ?_, ?_⟩
    · simp only [fsbDealloc, hli]
      rw [if_pos ⟨h8, h8⟩]
    · have hgd : ({ a1 with
          list_heads := a1.list_heads.set i (p :: a1.list_heads.getD i []) } :
            FixedSizeBlockAllocator FB).list_heads.getD i [] =
          p :: a1.list_heads.getD i [] := by
        show (a1.list_heads.set i (p :: a1.list_heads.getD i [])).getD i [] = _
        exact getD_set_self (by omega)
      simp only [fsbAlloc, hli, hgd]

/-- Witness for C7: a concrete alloc–dealloc–alloc cycle on each allocator. -/
theorem C7_round_trip_witness :
    (llDealloc [⟨48, 48⟩] 32 (Layout.mk 16 8) = some [⟨32, 16⟩, ⟨48, 48⟩] ∧
      llAlloc [⟨32, 16⟩, ⟨48, 48⟩] (Layout.mk 16 8) = some (some 32, [⟨48, 48⟩])) ∧
    ∃ a2, fsbDealloc (fun (u : Unit) (_ : Nat) (_ : Layout) => u)
        { list_heads := [[], [], [], [], [], [], [], [], []], fallback_allocator := () }
        200 (Layout.mk 16 16) = some a2 ∧
      (fsbAlloc (fun (u : Unit) (_ : Layout) => (none, u)) a2 (Layout.mk 16 16)).1 =
        some 200 := by
  constructor
  · exact C7_round_trip.1 [⟨32, 64⟩] (Layout.mk 16 8) 3 32 [⟨48, 48⟩] rfl
      (by decide) (by decide)
  · exact C7_round_trip.2 Unit (fun u _ => (none, u)) (fun u _ _ => u)
      { list_heads := [[], [200], [], [], [], [], [], [], []], fallback_allocator := () }
      (Layout.mk 16 16) 1 200
      { list_heads := [[], [], [], [], [], [], [], [], []], fallback_allocator := () }
      (by decide) (by decide) (by decide)



